import Mathlib

/-!
Shallow embedding of the `undici-traffic-interceptor` core: the Bloom filter
(`src/lib/bloom-filter.ts`), the URL utilities (`src/lib/utils.ts`), the filter
predicates `interceptRequest` / `interceptResponse` / `interceptByDomain`
(`src/lib/traffic.ts`), and the `TrafficInterceptor` lifecycle state machine
(`src/lib/interceptor.ts`, the `TrafficInterceptor` class).

Conventions of the embedding:
* JS `bigint` values are unbounded `Nat` (JS bigints are arbitrary precision;
  the distinction matters for the Bloom position derivation and is modelled
  exactly).
* JS `number` header sizes are `Nat`; HTTP status codes are `Int` (the context
  initialises `statusCode` to `-1`).
* JS `string | undefined` is `Option String`; JS object header maps are
  association lists `List (String × String)` with first-match lookup, the keys
  exactly as delivered by the dispatcher (undici delivers lowercased names).
* The xxh3 hasher is an external native library, not repository code; the
  request-identity hash is therefore a parameter `hashFn : String → Nat` of the
  state machine.  Response-body hashing does not affect any modelled state.
* `Number(s)` applied to a content-length value is modelled by `jsNumber`,
  which handles trimmed decimal digit strings and the empty string (`0`); on
  anything else it returns `none`, which like `NaN` makes every `>` comparison
  false.
-/

/-- JS truthiness of a `string | undefined` value: `undefined` and `""` are falsy. -/
def jsTruthyS : Option String → Bool
  | none => false
  | some s => !s.data.isEmpty

/-- JS string coercion of a `string | undefined` value used in `+` concatenation:
`undefined` coerces to the string `"undefined"`. -/
def jsCoerceStr : Option String → String
  | none => "undefined"
  | some s => s

/-- JS truthiness of a `boolean | undefined` tri-state flag: only `true` is truthy. -/
def jsTruthy : Option Bool → Bool
  | none => false
  | some b => b

/-- JS `s.toLowerCase()` modelled per character over the string's character
sequence (the source only lowercases ASCII header and cookie names). -/
def strLower (s : String) : String := ⟨s.data.map Char.toLower⟩

/-- JS `s.trim()`: strip whitespace from both ends of the character sequence. -/
def strTrim (s : String) : String :=
  ⟨((s.data.dropWhile Char.isWhitespace).reverse.dropWhile Char.isWhitespace).reverse⟩

/-- Character-sequence core of JS `s.startsWith(pat)`. -/
def strStartsWithAux : List Char → List Char → Bool
  | _, [] => true
  | [], _ :: _ => false
  | c :: cs, d :: ds => c == d && strStartsWithAux cs ds

/-- JS `s.startsWith(pat)`. -/
def strStartsWith (s pat : String) : Bool := strStartsWithAux s.data pat.data

/-- JS `s.endsWith(pat)`. -/
def strEndsWith (s pat : String) : Bool := strStartsWithAux s.data.reverse pat.data.reverse

/-- Splitting on a single separator character, as the source's
`split`/`splitOn` uses with `";"` and `"="`. -/
def splitCharAux (sep : Char) : List Char → List Char → List (List Char)
  | [], acc => [acc.reverse]
  | c :: cs, acc =>
    if c == sep then acc.reverse :: splitCharAux sep cs []
    else splitCharAux sep cs (c :: acc)

/-- JS `s.split(sep)` for a one-character separator. -/
def splitChar (sep : Char) (s : String) : List String :=
  (splitCharAux sep s.data []).map String.mk

/-- Decimal-digit accumulation for the model of JS `Number`. -/
def decDigitsAux : List Char → Nat → Option Nat
  | [], acc => some acc
  | c :: cs, acc => if c.isDigit then decDigitsAux cs (acc * 10 + (c.toNat - 48)) else none

/-- First-match lookup in a JS object viewed as an association list, `obj[key]`. -/
def lookupH : List (String × String) → String → Option String
  | [], _ => none
  | (k, v) :: rest, key => if k = key then some v else lookupH rest key

/-- Model of JS `Number(s)` restricted to the values compared against
`maxResponseSize`: a trimmed string of decimal digits parses to its value, the
empty string to `0`, anything else to `none` (standing for `NaN`). -/
def jsNumber (s : String) : Option Nat :=
  let t := strTrim s
  if t.data.isEmpty then some 0 else decDigitsAux t.data 0

/-- Names parsed out of a `Cookie` / `Set-Cookie` header value by the `cookie`
package's `parse`: segments are split on `;`, a segment without `=` is skipped,
and the name is the trimmed text before the first `=`. -/
def parseCookieNames (s : String) : List String :=
  (splitChar ';' s).filterMap fun part =>
    match splitChar '=' part with
    | [] => none
    | [_] => none
    | name :: _ :: _ => some (strTrim name)

/-! ## BloomFilter (`src/lib/bloom-filter.ts`) -/

/-- The Bloom filter state: `bitArray` is the byte-packed `Uint8Array`,
`bitArraySize` the number `m` of bits, `numHashFunctions` the number `k` of
derived positions.  `m` and `k` are computed in the constructor from
`expectedElements` and `falsePositiveRate` with floating-point `Math.log`;
the embedding takes them as the already-computed naturals. -/
structure BloomFilter where
  bitArray : List Nat
  numHashFunctions : Nat
  bitArraySize : Nat

/-- One step of the position-derivation loop,
`currentHash = (currentHash << 1n) | (currentHash >> 63n)` on a JS `bigint`,
i.e. on an unbounded nonnegative integer (no 64-bit mask is applied). -/
def jsRotStep (h : Nat) : Nat := (h <<< 1) ||| (h >>> 63)

/-- The position-derivation loop of `BloomFilter.getPositions`: before each of
the `k` emissions the current hash is replaced by `jsRotStep` of itself, and
`currentHash % m` is emitted. -/
def getPositionsAux (m : Nat) : Nat → Nat → List Nat
  | _, 0 => []
  | h, k + 1 =>
    let h2 := jsRotStep h
    h2 % m :: getPositionsAux m h2 k

/-- Genuine left-rotation by one on a 64-bit word, `(h<<1) | (h>>63)` computed
in 64 bits.  This definition follows the specification's words ("the 64-bit
left-rotation") and exists only to be compared against the source's
`jsRotStep`, which operates on unbounded bigints. -/
def rotl64 (h : Nat) : Nat := ((h <<< 1) % (2 ^ 64)) ||| ((h % (2 ^ 64)) >>> 63)

/-- `BloomFilter.getPositions`. -/
def BloomFilter.getPositions (bf : BloomFilter) (hash : Nat) : List Nat :=
  getPositionsAux bf.bitArraySize hash bf.numHashFunctions

/-- `BloomFilter.setBit` acting on the byte array: `bitArray[p/8] |= 1 << (p%8)`.
`List.set` is a no-op out of range, matching a `Uint8Array` out-of-bounds write. -/
def setBitArr (a : List Nat) (position : Nat) : List Nat :=
  a.set (position / 8) (((a.get? (position / 8)).getD 0) ||| (1 <<< (position % 8)))

/-- `BloomFilter.getBit` acting on the byte array:
`(bitArray[p/8] & (1 << (p%8))) !== 0`.  An out-of-range read yields `0`
(JS `undefined` coerces to `0` under `&`). -/
def getBitArr (a : List Nat) (position : Nat) : Bool :=
  (((a.get? (position / 8)).getD 0) &&& (1 <<< (position % 8))) != 0

/-- `BloomFilter.add`: set every derived position. -/
def BloomFilter.add (bf : BloomFilter) (hash : Nat) : BloomFilter :=
  { bf with bitArray := (bf.getPositions hash).foldl setBitArr bf.bitArray }

/-- `BloomFilter.has`: true iff every derived position is set. -/
def BloomFilter.has (bf : BloomFilter) (hash : Nat) : Bool :=
  (bf.getPositions hash).all fun position => getBitArr bf.bitArray position

/-- The constructor's allocation given the already-computed sizes `m` and `k`:
`new Uint8Array(Math.ceil(m / 8))`, zero-filled. -/
def BloomFilter.create (m k : Nat) : BloomFilter :=
  { bitArray := List.replicate ((m + 7) / 8) 0, numHashFunctions := k, bitArraySize := m }

/-- Well-formedness of a filter as produced by the constructor: at least one
bit (`m = ⌈−n·ln p/(ln 2)²⌉ ≥ 1` for `n ≥ 1`, `0 < p < 1`) and a byte array of
exactly `⌈m/8⌉` bytes. -/
def BloomWF (bf : BloomFilter) : Prop :=
  1 ≤ bf.bitArraySize ∧ bf.bitArray.length = (bf.bitArraySize + 7) / 8

/-! ## URL utilities (`src/lib/utils.ts`) -/

/-- `extractDomain`: strip a leading `http://` or `https://`, cut at the first
`:` after that, and prepend `.`; `undefined`/empty input gives `undefined`. -/
def extractDomain (origin : Option String) : Option String :=
  match origin with
  | none => none
  | some s =>
    if s.data.isEmpty then none
    else
      let start := if strStartsWith s "http://" then 7
        else if strStartsWith s "https://" then 8 else 0
      some ("." ++ String.mk ((s.data.drop start).takeWhile (· != ':')))

/-- `extractOrigin`: prefer a truthy `Origin` header, then a truthy `origin`
header, then the dispatch origin. -/
def extractOrigin (origin : Option String) (headers : Option (List (String × String))) :
    Option String :=
  match headers with
  | none => origin
  | some hs =>
    if jsTruthyS (lookupH hs "Origin") then lookupH hs "Origin"
    else if jsTruthyS (lookupH hs "origin") then lookupH hs "origin"
    else origin

/-! ## Options and filter predicates (`src/lib/traffic.ts`) -/

/-- The option fields consulted by the filter predicates.
`interceptResponseStatusCodes` is the status-code predicate. -/
structure TIOptions where
  maxResponseSize : Nat
  matchingDomains : Option (List String)
  skippingRequestHeaders : List String
  skippingResponseHeaders : List String
  interceptResponseStatusCodes : Int → Bool
  skippingCookieSessionIds : List String

/-- The default option values of `traffic.ts`. -/
def defaultOptions : TIOptions where
  maxResponseSize := 5 * 1024 * 1024
  matchingDomains := none
  skippingRequestHeaders :=
    ["cache-control", "pragma", "if-none-match", "if-modified-since",
     "authorization", "proxy-authorization"]
  skippingResponseHeaders :=
    ["etag", "last-modified", "expires", "cache-control", "authorization",
     "proxy-authenticate", "www-authenticate", "set-cookie"]
  interceptResponseStatusCodes := fun code => decide (199 < code) && decide (code < 300)
  skippingCookieSessionIds :=
    ["jsessionid", "phpsessid", "asp.net_sessionid", "connect.sid", "sid", "ssid",
     "auth_token", "access_token", "csrf_token", "xsrf-token", "x-csrf-token",
     "session", "refreshtoken", "token", "sessionid", "csrftoken", "authtoken",
     "accesstoken"]

/-- `interceptByDomain`: `!matchingDomains` (only `undefined`, arrays are always
truthy in JS) admits everything; `!domain` (`undefined` or `""`) is rejected;
otherwise the domain must end with one of the listed suffixes. -/
def interceptByDomain (domain : Option String) (matchingDomains : Option (List String)) : Bool :=
  match matchingDomains with
  | none => true
  | some ds =>
    match domain with
    | none => false
    | some d => if d.data.isEmpty then false else ds.any fun suf => strEndsWith d suf

/-- The per-transaction context fields read or written by the embedded code. -/
structure Ctx where
  requestMethod : String
  requestHeaders : Option (List (String × String))
  requestUrl : Option String
  requestDomain : Option String
  requestOrigin : Option String
  requestHash : Option Nat
  responseStatusCode : Int
  responseHeaders : Option (List (String × String))
  interceptRequest : Option Bool
  interceptResponse : Option Bool
  sendMeta : Option Bool
  sendBody : Option Bool

/-- The skipping-cookie check shared by both predicates: some parsed cookie
name, lowercased, is in `skippingCookieSessionIds`. -/
def cookieNamesSkip (opts : TIOptions) (v : String) : Bool :=
  (parseCookieNames v).any fun name => opts.skippingCookieSessionIds.contains (strLower name)

/-- The request-header loop of `interceptRequest`: reject on any skipping
header (compared lowercased), and on a `cookie` header whose parsed names hit
the session-id list; the cookie value read is the looped entry's own value. -/
def reqHeadersLoop (opts : TIOptions) : List (String × String) → Bool
  | [] => true
  | (k, v) :: rest =>
    let header := strLower k
    if opts.skippingRequestHeaders.contains header then false
    else if header == "cookie" then
      if cookieNamesSkip opts v then false else reqHeadersLoop opts rest
    else reqHeadersLoop opts rest

/-- `interceptRequest` of `traffic.ts`: method must be `"GET"`, the domain must
pass `interceptByDomain`, absent headers admit, and otherwise the header loop
decides. -/
def interceptRequest (opts : TIOptions) (ctx : Ctx) : Bool :=
  if ctx.requestMethod != "GET" then false
  else if !interceptByDomain ctx.requestDomain opts.matchingDomains then false
  else
    match ctx.requestHeaders with
    | none => true
    | some hs => reqHeadersLoop opts hs

/-- The content-length size test of the response loop:
`Number(headers['content-length']) > maxResponseSize`, reading the value via
lookup of the literal lowercase name (a `none`/`NaN` compares false). -/
def clExceeds (opts : TIOptions) (all : List (String × String)) : Bool :=
  match lookupH all "content-length" with
  | none => false
  | some v =>
    match jsNumber v with
    | none => false
    | some n => decide (opts.maxResponseSize < n)

/-- The response-header loop of `interceptResponse`, carrying the
`hasContentLength` flag; on loop exit the flag itself is the result
(`if (!hasContentLength) return false; return true`).  The `set-cookie` and
`content-length` values are read by lookup of the literal lowercase name, as in
the source. -/
def respHeadersLoop (opts : TIOptions) (all : List (String × String)) :
    List (String × String) → Bool → Bool
  | [], hasContentLength => hasContentLength
  | (k, _) :: rest, hasContentLength =>
    let header := strLower k
    if opts.skippingResponseHeaders.contains header then false
    else if header == "set-cookie" then
      if cookieNamesSkip opts ((lookupH all "set-cookie").getD "") then false
      else respHeadersLoop opts all rest hasContentLength
    else if header == "content-length" then
      if clExceeds opts all then false
      else respHeadersLoop opts all rest true
    else respHeadersLoop opts all rest hasContentLength

/-- `interceptResponse` of `traffic.ts`: the status-code predicate must pass,
absent (`undefined`) headers admit, and otherwise the header loop decides —
in particular a present header object without a `content-length` key is
rejected at loop exit. -/
def interceptResponse (opts : TIOptions) (ctx : Ctx) : Bool :=
  if !opts.interceptResponseStatusCodes ctx.responseStatusCode then false
  else
    match ctx.responseHeaders with
    | none => true
    | some hs => respHeadersLoop opts hs hs false

/-! ## The TrafficInterceptor lifecycle state machine (`src/lib/interceptor.ts`) -/

/-- The dispatch-option fields read by `onRequestStart`. -/
structure DispatchOptions where
  method : String
  origin : Option String
  path : Option String
  headers : Option (List (String × String))

/-- JS `path || '/'`: `undefined` and `""` fall back to `"/"`. -/
def jsOrSlash : Option String → String
  | none => "/"
  | some p => if p.data.isEmpty then "/" else p

/-- The request URL computed at `onRequestStart`:
`request.origin + (dispatchOptions.path || '/')` (JS `+` coerces an undefined
origin to the string `"undefined"`). -/
def jsUrlOf (d : DispatchOptions) : String :=
  jsCoerceStr (extractOrigin d.origin d.headers) ++ jsOrSlash d.path

/-- The context-population prefix of `onRequestStart`: origin via
`extractOrigin`, domain via `extractDomain` only when `matchingDomains` is
configured, then url, headers and method from the dispatch options. -/
def requestSetup (opts : TIOptions) (d : DispatchOptions) (c : Ctx) : Ctx :=
  let origin := extractOrigin d.origin d.headers
  { c with
    requestOrigin := origin
    requestDomain := if opts.matchingDomains.isSome then extractDomain origin else c.requestDomain
    requestUrl := some (jsUrlOf d)
    requestHeaders := d.headers
    requestMethod := d.method }

/-- The lifecycle callbacks of the dispatcher, plus the abort hook the
interceptor installs on the controller. -/
inductive Event where
  | requestStart
  | requestUpgrade
  | responseStart (statusCode : Int) (headers : Option (List (String × String)))
  | responseData
  | responseEnd
  | responseError
  | requestAbort
deriving DecidableEq

/-- Whether an event is the `onRequestStart` callback. -/
def Event.isRequestStart : Event → Bool
  | .requestStart => true
  | _ => false

/-- Whether an event is the `onResponseStart` callback. -/
def Event.isResponseStart : Event → Bool
  | .responseStart _ _ => true
  | _ => false

/-- Whether an event is the `onResponseEnd` callback. -/
def Event.isResponseEnd : Event → Bool
  | .responseEnd => true
  | _ => false

/-- The fixed parameters of one interceptor instance: the identity-hash
function (external xxh3), the validated options, and the request/response
predicates (`options.interceptRequest ?? interceptRequest`, likewise for the
response side). -/
structure MParams where
  hashFn : String → Nat
  opts : TIOptions
  reqPred : Ctx → Bool
  respPred : Ctx → Bool

/-- An interceptor instance with the default predicates wired in. -/
def defaultParams (hashFn : String → Nat) (opts : TIOptions) : MParams :=
  { hashFn := hashFn, opts := opts,
    reqPred := interceptRequest opts, respPred := interceptResponse opts }

/-- The modelled mutable state of one transaction: the context, the shared
Bloom filter, the `aborted` flag, whether the mirror body writer is alive, and
counters of attempted body POSTs (`pathSendBody`), attempted meta POSTs
(`pathSendMeta`) and `BloomFilter.add` invocations. -/
structure MState where
  dopts : DispatchOptions
  ctx : Ctx
  bloom : BloomFilter
  aborted : Bool
  writerAlive : Bool
  bodyPosts : Nat
  metaPosts : Nat
  addCalls : Nat

/-- The context as built in the interceptor constructor: empty method, empty
header objects, status code `-1`, every tri-state flag `undefined`. -/
def initCtx : Ctx :=
  { requestMethod := "", requestHeaders := some [], requestUrl := none,
    requestDomain := none, requestOrigin := none, requestHash := none,
    responseStatusCode := -1, responseHeaders := some [],
    interceptRequest := none, interceptResponse := none,
    sendMeta := none, sendBody := none }

/-- The state at transaction start, sharing the interceptor's Bloom filter. -/
def initState (d : DispatchOptions) (b : BloomFilter) : MState :=
  { dopts := d, ctx := initCtx, bloom := b, aborted := false, writerAlive := false,
    bodyPosts := 0, metaPosts := 0, addCalls := 0 }

/-- `onRequestStart`: populate the context, evaluate the request predicate;
on rejection set `sendBody=false, sendMeta=false`; on admission hash the URL
and consult the shared Bloom filter — a hit gives `sendMeta=true,
sendBody=false`, a miss inserts the hash and gives `sendMeta=true,
sendBody=true`. -/
def stepRequestStart (P : MParams) (s : MState) : MState :=
  let c := requestSetup P.opts s.dopts s.ctx
  if P.reqPred c then
    let hsh := P.hashFn (jsUrlOf s.dopts)
    let c := { c with interceptRequest := some true, requestHash := some hsh }
    if s.bloom.has hsh then
      { s with ctx := { c with sendMeta := some true, sendBody := some false } }
    else
      { s with ctx := { c with sendMeta := some true, sendBody := some true },
               bloom := s.bloom.add hsh, addCalls := s.addCalls + 1 }
  else
    { s with ctx := { c with interceptRequest := some false,
                             sendBody := some false, sendMeta := some false } }

/-- `onResponseStart`: record status and headers; return early when
`interceptRequest` is not truthy (leaving `interceptResponse` undefined);
evaluate the response predicate; when it passes and `sendBody` is truthy, open
the mirror writer and attempt the body POST to `pathSendBody`. -/
def stepResponseStart (P : MParams) (statusCode : Int)
    (headers : Option (List (String × String))) (s : MState) : MState :=
  let c := { s.ctx with responseStatusCode := statusCode, responseHeaders := headers }
  if !jsTruthy s.ctx.interceptRequest then { s with ctx := c }
  else
    let r := P.respPred c
    let c := { c with interceptResponse := some r }
    if !r then { s with ctx := c }
    else if jsTruthy s.ctx.sendBody then
      { s with ctx := c, writerAlive := true, bodyPosts := s.bodyPosts + 1 }
    else { s with ctx := c }

/-- `onResponseEnd`: return early unless `interceptResponse` is truthy and the
transaction is not aborted; when `sendBody` and the writer is alive, end the
writer; when `sendMeta`, attempt the meta POST to `pathSendMeta`. -/
def stepResponseEnd (s : MState) : MState :=
  if !jsTruthy s.ctx.interceptResponse || s.aborted then s
  else
    let s := if jsTruthy s.ctx.sendBody && s.writerAlive then
      { s with writerAlive := false } else s
    if jsTruthy s.ctx.sendMeta then { s with metaPosts := s.metaPosts + 1 } else s

/-- One lifecycle callback.  `onResponseData` hashes and tees the chunk but
changes none of the modelled state (its early-return guard mirrors
`onResponseEnd`'s); `onRequestUpgrade` only forwards; `onResponseError` tears
the writer down; the installed abort hook also sets `aborted`. -/
def step (P : MParams) (s : MState) : Event → MState
  | .requestStart => stepRequestStart P s
  | .requestUpgrade => s
  | .responseStart statusCode headers => stepResponseStart P statusCode headers s
  | .responseData => s
  | .responseEnd => stepResponseEnd s
  | .responseError => { s with writerAlive := false }
  | .requestAbort => { s with writerAlive := false, aborted := true }

/-- Run a sequence of lifecycle callbacks. -/
def run (P : MParams) (t : List Event) (s : MState) : MState := t.foldl (step P) s

/-! ## Bit-level lemmas about the Bloom filter -/

/-- The JS bit test `(x & (1 << i)) !== 0` agrees with `Nat.testBit`. -/
theorem and_shift_ne_zero (x i : Nat) : ((x &&& (1 <<< i)) != 0) = x.testBit i := by
  rw [Nat.shiftLeft_eq, one_mul, Nat.and_two_pow]
  cases hx : x.testBit i
  · simp
  · simp [(Nat.two_pow_pos i).ne']

/-- `getBitArr` reads exactly one bit of one byte. -/
theorem getBitArr_eq (a : List Nat) (p : Nat) :
    getBitArr a p = ((a.get? (p / 8)).getD 0).testBit (p % 8) := by
  unfold getBitArr
  exact and_shift_ne_zero _ _

/-- Setting a bit never changes the array length. -/
theorem setBitArr_length (a : List Nat) (p : Nat) : (setBitArr a p).length = a.length :=
  List.length_set ..

/-- Setting one bit preserves every set bit. -/
theorem getBitArr_setBitArr_mono (a : List Nat) (p q : Nat) (h : getBitArr a p = true) :
    getBitArr (setBitArr a q) p = true := by
  rw [getBitArr_eq] at h ⊢
  unfold setBitArr
  by_cases hij : q / 8 = p / 8
  · by_cases hl : q / 8 < a.length
    · rw [← hij] at h ⊢
      rw [List.get?_set_eq_of_lt _ hl]
      simp only [Option.getD_some, Nat.testBit_lor, h, Bool.true_or]
    · have hl' : a.length ≤ p / 8 := hij ▸ Nat.le_of_not_lt hl
      rw [List.get?_eq_none.mpr hl'] at h
      simp [Nat.zero_testBit] at h
  · rw [List.get?_set_ne _ _ hij]
    exact h

/-- Setting a bit within bounds makes it read back set. -/
theorem getBitArr_setBitArr_self (a : List Nat) (q : Nat) (hl : q / 8 < a.length) :
    getBitArr (setBitArr a q) q = true := by
  rw [getBitArr_eq]
  unfold setBitArr
  rw [List.get?_set_eq_of_lt _ hl]
  simp only [Option.getD_some, Nat.testBit_lor, Nat.shiftLeft_eq, one_mul,
    Nat.testBit_two_pow_self, Bool.or_true]

/-- Folding `setBitArr` over a position list never changes the length. -/
theorem foldl_setBitArr_length (ps : List Nat) (a : List Nat) :
    (ps.foldl setBitArr a).length = a.length := by
  induction ps generalizing a with
  | nil => rfl
  | cons q ps ih => rw [List.foldl_cons, ih, setBitArr_length]

/-- Folding `setBitArr` preserves every set bit. -/
theorem getBitArr_foldl_mono (ps : List Nat) (a : List Nat) (p : Nat)
    (h : getBitArr a p = true) : getBitArr (ps.foldl setBitArr a) p = true := by
  induction ps generalizing a with
  | nil => exact h
  | cons q ps ih => exact ih _ (getBitArr_setBitArr_mono _ _ _ h)

/-- Every in-bounds position in the folded list reads back set. -/
theorem getBitArr_foldl_self (ps : List Nat) (a : List Nat) (p : Nat)
    (hp : p ∈ ps) (hl : p / 8 < a.length) :
    getBitArr (ps.foldl setBitArr a) p = true := by
  induction ps generalizing a with
  | nil => cases hp
  | cons q ps ih =>
    rw [List.foldl_cons]
    rcases List.mem_cons.mp hp with rfl | hmem
    · exact getBitArr_foldl_mono ps _ _ (getBitArr_setBitArr_self a p hl)
    · exact ih (setBitArr a q) hmem (by rwa [setBitArr_length])

/-- Every derived position is strictly below `m`. -/
theorem getPositionsAux_mem_lt (m : Nat) (hm : 0 < m) :
    ∀ k h p, p ∈ getPositionsAux m h k → p < m := by
  intro k
  induction k with
  | zero => intro h p hp; cases hp
  | succ k ih =>
    intro h p hp
    rcases List.mem_cons.mp hp with rfl | hmem
    · exact Nat.mod_lt _ hm
    · exact ih _ _ hmem

/-- A position below `m` touches a byte index below `⌈m/8⌉`. -/
theorem div8_lt_ceil {p m : Nat} (h : p < m) : p / 8 < (m + 7) / 8 := by omega

/-- `add` does not change the filter geometry, so position derivation is
stable under insertions. -/
theorem getPositions_add (bf : BloomFilter) (h h' : Nat) :
    (bf.add h').getPositions h = bf.getPositions h := rfl

/-- `add` preserves well-formedness. -/
theorem BloomWF_add {bf : BloomFilter} (w : BloomWF bf) (h : Nat) : BloomWF (bf.add h) := by
  refine ⟨w.1, ?_⟩
  show ((bf.getPositions h).foldl setBitArr bf.bitArray).length = _
  rw [foldl_setBitArr_length, w.2]
  rfl

/-- A hash just inserted into a well-formed filter is found. -/
theorem has_add_self {bf : BloomFilter} (w : BloomWF bf) (h : Nat) :
    (bf.add h).has h = true := by
  unfold BloomFilter.has
  rw [List.all_eq_true]
  intro p hp
  rw [getPositions_add] at hp
  show getBitArr ((bf.getPositions h).foldl setBitArr bf.bitArray) p = true
  refine getBitArr_foldl_self _ _ _ hp ?_
  rw [w.2]
  exact div8_lt_ceil (getPositionsAux_mem_lt _ w.1 _ _ _ hp)

/-- Membership is preserved by later insertions. -/
theorem has_mono_add {bf : BloomFilter} {h : Nat} (hh : bf.has h = true) (h' : Nat) :
    (bf.add h').has h = true := by
  unfold BloomFilter.has at hh ⊢
  rw [List.all_eq_true] at hh ⊢
  intro p hp
  rw [getPositions_add] at hp
  exact getBitArr_foldl_mono _ _ _ (hh p hp)

/-- Membership is preserved by any sequence of later insertions. -/
theorem has_foldl_add {bf : BloomFilter} {h : Nat} (hh : bf.has h = true) (rest : List Nat) :
    (rest.foldl BloomFilter.add bf).has h = true := by
  induction rest generalizing bf with
  | nil => exact hh
  | cons x rest ih => exact ih (has_mono_add hh x)

/-- The constructor yields a well-formed filter when `m ≥ 1`. -/
theorem create_wf {m : Nat} (k : Nat) (hm : 1 ≤ m) : BloomWF (BloomFilter.create m k) :=
  ⟨hm, List.length_replicate ..⟩

/-- Inserting every hash of a list into a well-formed filter makes each of
them a member. -/
theorem has_of_mem_foldl {H : List Nat} {h : Nat} (hmem : h ∈ H) :
    ∀ bf : BloomFilter, BloomWF bf → (H.foldl BloomFilter.add bf).has h = true := by
  induction H with
  | nil => cases hmem
  | cons x rest ih =>
    intro bf w
    rcases List.mem_cons.mp hmem with rfl | hmem'
    · exact has_foldl_add (has_add_self w h) rest
    · exact ih hmem' _ (BloomWF_add w x)

/-! ## Claim C2: no false negatives -/

/-- C2: the Bloom filter never reports a false negative — for every sequence
of `add` calls with 64-bit hashes `H` and every `h ∈ H`, a subsequent `has h`
returns `true` (for any constructed geometry, i.e. any `m ≥ 1` and any `k`). -/
theorem bloom_no_false_negative (m k : Nat) (H : List Nat) (h : Nat)
    (hm : 1 ≤ m) (_h64 : ∀ x ∈ H, x < 2 ^ 64) (hmem : h ∈ H) :
    (H.foldl BloomFilter.add (BloomFilter.create m k)).has h = true :=
  has_of_mem_foldl hmem _ (create_wf k hm)

/-- C2 (witness): a concrete two-insert run finds the first insert. -/
theorem bloom_no_false_negative_witness :
    (([42, 7] : List Nat).foldl BloomFilter.add (BloomFilter.create 8 2)).has 42 = true :=
  bloom_no_false_negative 8 2 [42, 7] 42 (by decide) (by decide) (by decide)

/-! ## Claim C10: all bit accesses are in bounds -/

/-- C10: for every constructed filter (`m ≥ 1` as the constructor's formulas
guarantee for `expectedElements ≥ 1`, `0 < falsePositiveRate < 1`) and every
hash, each derived position lies in `[0, m)`, the byte index it touches lies
strictly below the allocated length `⌈m/8⌉`, and `add` keeps the array at that
length — so no access of `add` or `has` is out of bounds. -/
theorem bloom_access_in_bounds (m k h p h' : Nat) (hm : 1 ≤ m)
    (hp : p ∈ (BloomFilter.create m k).getPositions h) :
    p < m ∧ p / 8 < ((BloomFilter.create m k).bitArray).length ∧
      (((BloomFilter.create m k).add h').bitArray).length = (m + 7) / 8 := by
  have hlt : p < m := getPositionsAux_mem_lt m hm _ _ _ hp
  refine ⟨hlt, ?_, ?_⟩
  · show p / 8 < (List.replicate ((m + 7) / 8) (0 : Nat)).length
    rw [List.length_replicate]
    exact div8_lt_ceil hlt
  · exact (BloomWF_add (create_wf k hm) h').2

/-- C10 (witness): concrete geometry `m = 8`, `k = 3`, hash `5`, position `2`. -/
theorem bloom_access_in_bounds_witness :
    2 < 8 ∧ 2 / 8 < ((BloomFilter.create 8 3).bitArray).length ∧
      (((BloomFilter.create 8 3).add 9).bitArray).length = (8 + 7) / 8 :=
  bloom_access_in_bounds 8 3 5 2 9 (by decide) (by decide)

/-! ## Claim C8: position derivation vs 64-bit rotation -/

/-- The position list in closed form: the `i`-th emitted position is the
`(i+1)`-fold `jsRotStep` iterate of the seed, reduced mod `m`. -/
theorem getPositionsAux_eq_map (m : Nat) :
    ∀ k h, getPositionsAux m h k =
      (List.range k).map fun i => (jsRotStep^[i + 1] h) % m := by
  intro k
  induction k with
  | zero => intro h; rfl
  | succ k ih =>
    intro h
    simp only [getPositionsAux]
    rw [ih (jsRotStep h), List.range_succ_eq_map, List.map_cons, List.map_map]
    congr 1

/-- C8 (counterexample): the claim is false at the filter `BloomFilter(1, 0.3)`
(geometry `m = 3`, `k = 3`) and seed `2^63`: the source iterates
`(h<<1n)|(h>>63n)` on an unbounded bigint, so the first derived position is
`(2^64 + 1) % 3 = 2`, while the claimed genuine 64-bit rotation gives
`rotl64(2^63) % 3 = 1 % 3 = 1`. -/
theorem positions_not_64bit_rotation_cex :
    ((BloomFilter.create 3 3).getPositions (2 ^ 63)).get? 0 ≠
      some ((rotl64^[0 + 1] (2 ^ 63)) % 3) := by decide

/-- C8 (amended): for every `m ≥ 1`, seed and `i < k`, the `i`-th derived
position equals the `(i+1)`-fold iterate of the unmasked bigint step
`h ↦ (h<<1)|(h>>63)` applied to the seed, reduced mod `m` (this coincides with
64-bit rotation only while every intermediate value stays below `2^63`); the
derivation is a pure function of its input — deterministic — and every emitted
position is below `m`, so duplicates are merely re-set bits. -/
theorem positions_closed_form (m h k p : Nat) (hm : 1 ≤ m)
    (hp : p ∈ getPositionsAux m h k) :
    getPositionsAux m h k = ((List.range k).map fun i => (jsRotStep^[i + 1] h) % m) ∧
      p < m :=
  ⟨getPositionsAux_eq_map m k h, getPositionsAux_mem_lt m hm k h p hp⟩

/-- C8 (witness): the closed form at `m = 8`, seed `5`, `k = 3`. -/
theorem positions_closed_form_witness :
    getPositionsAux 8 5 3 = ((List.range 3).map fun i => (jsRotStep^[i + 1] 5) % 8) ∧
      2 < 8 :=
  positions_closed_form 8 5 3 2 (by decide) (by decide)

/-! ## Claim C9: domain matching -/

/-- C9 (counterexample): an empty — but defined — suffix list rejects every
domain, because a JS array is always truthy, so `!matchingDomains` does not
fire and the suffix loop runs zero iterations; the claim instead demands
`matchesDomain(anything, []) == true`. -/
theorem interceptByDomain_empty_list_cex :
    interceptByDomain (some ".x") (some ([] : List String)) ≠ true := by decide

/-- C9 (amended): `interceptByDomain` returns true for every input when the
suffix list is unset (`undefined`); when a list is present (even the empty
one) an undefined domain is rejected, and a defined non-empty domain is
admitted exactly when it ends with one of the listed suffixes — hence the
empty list rejects everything.  The three remaining literal examples of the
claim hold as stated. -/
theorem interceptByDomain_spec (d : String) (ds : List String) (hd : d.data.isEmpty = false) :
    interceptByDomain (some d) none = true ∧
    interceptByDomain none none = true ∧
    interceptByDomain none (some ds) = false ∧
    (interceptByDomain (some d) (some ds) = ds.any fun suf => strEndsWith d suf) ∧
    interceptByDomain (some ".sub.plt.local") (some [".local"]) = true ∧
    interceptByDomain (some ".example.com") (some [".sub.example.com"]) = false ∧
    interceptByDomain none (some [".x"]) = false ∧
    interceptByDomain (some ".anything") (some ([] : List String)) = false := by
  refine ⟨rfl, rfl, rfl, ?_, by decide, by decide, rfl, by decide⟩
  simp [interceptByDomain, hd]

/-- C9 (witness): the amended statement at `d = ".x"`, `ds = [".y"]`. -/
theorem interceptByDomain_spec_witness :
    interceptByDomain (some ".x") none = true ∧
    interceptByDomain none none = true ∧
    interceptByDomain none (some [".y"]) = false ∧
    (interceptByDomain (some ".x") (some [".y"]) = [".y"].any fun suf => strEndsWith ".x" suf) ∧
    interceptByDomain (some ".sub.plt.local") (some [".local"]) = true ∧
    interceptByDomain (some ".example.com") (some [".sub.example.com"]) = false ∧
    interceptByDomain none (some [".x"]) = false ∧
    interceptByDomain (some ".anything") (some ([] : List String)) = false :=
  interceptByDomain_spec ".x" [".y"] (by decide)

/-! ## Claim C3: content-length handling in `interceptResponse` -/

/-- A successful lookup in the association list exhibits a member. -/
theorem lookupH_mem : ∀ {hs : List (String × String)} {key v : String},
    lookupH hs key = some v → (key, v) ∈ hs := by
  intro hs
  induction hs with
  | nil => intro key v h; cases h
  | cons e rest ih =>
    intro key v h
    obtain ⟨k, w⟩ := e
    rw [lookupH] at h
    by_cases hk : k = key
    · rw [if_pos hk] at h
      cases h
      subst hk
      exact List.mem_cons_self _ _
    · rw [if_neg hk] at h
      exact List.mem_cons_of_mem _ (ih h)

/-- When the looked-up `content-length` value exceeds the limit, the response
header loop rejects as soon as a `content-length` key occurs among the
iterated entries — or earlier. -/
theorem respHeadersLoop_false_of_cl (opts : TIOptions) (all : List (String × String))
    (hcl : clExceeds opts all = true) :
    ∀ hs b, (∃ w, ("content-length", w) ∈ hs) → respHeadersLoop opts all hs b = false := by
  intro hs
  induction hs with
  | nil =>
    rintro b ⟨w, hw⟩
    cases hw
  | cons e rest ih =>
    rintro b ⟨w, hw⟩
    obtain ⟨k, v⟩ := e
    rcases List.mem_cons.mp hw with heq | hmem
    · cases heq
      have h2 : (strLower "content-length" == "set-cookie") = false := by decide
      have h4 : (strLower "content-length" == "content-length") = true := by decide
      simp [respHeadersLoop, h2, h4, hcl]
    · have hex : ∃ w', ("content-length", w') ∈ rest := ⟨w, hmem⟩
      simp only [respHeadersLoop]
      split_ifs <;> first | rfl | exact ih _ hex

/-- When no iterated key lowercases to `content-length`, the loop started with
flag `false` ends rejecting (or rejects earlier). -/
theorem respHeadersLoop_no_cl (opts : TIOptions) (all : List (String × String)) :
    ∀ hs, (∀ e ∈ hs, (strLower e.1 == "content-length") = false) →
      respHeadersLoop opts all hs false = false := by
  intro hs
  induction hs with
  | nil => intro _; rfl
  | cons e rest ih =>
    intro hnc
    obtain ⟨k, v⟩ := e
    have hk : (strLower k == "content-length") = false := hnc (k, v) (List.mem_cons_self _ _)
    have hrest : ∀ e ∈ rest, (strLower e.1 == "content-length") = false :=
      fun e he => hnc e (List.mem_cons_of_mem _ he)
    simp only [respHeadersLoop, hk, Bool.false_eq_true, if_false]
    split_ifs <;> first | rfl | exact ih hrest

/-- C3 (counterexample): the claim's second half is false — a `200` response
whose header object is present but carries no `content-length` key passes the
status-code, response-header and set-cookie checks, yet `interceptResponse`
rejects it (`if (!hasContentLength) return false`), while the claim says it is
admitted. -/
theorem interceptResponse_missing_content_length_rejected_cex :
    interceptResponse defaultOptions
      { initCtx with responseStatusCode := 200, responseHeaders := some [] } ≠ true := by
  decide

/-- C3 (amended): if a `content-length` header is present and its numeric value
strictly exceeds `maxResponseSize`, `interceptResponse` fails; and if the
header object is present but contains no key lowercasing to `content-length`,
`interceptResponse` also fails — absence of `content-length` causes rejection,
not admission (only a wholly absent header object is admitted, via the
`!context.response.headers` early return). -/
theorem interceptResponse_content_length_spec (opts : TIOptions) (ctx : Ctx)
    (hs : List (String × String)) (v : String) (n : Nat)
    (hh : ctx.responseHeaders = some hs) :
    (lookupH hs "content-length" = some v → jsNumber v = some n →
        opts.maxResponseSize < n → interceptResponse opts ctx = false) ∧
    ((hs.all fun e => strLower e.1 != "content-length") = true →
        interceptResponse opts ctx = false) := by
  constructor
  · intro hv hn hgt
    have hcl : clExceeds opts hs = true := by
      simp only [clExceeds, hv, hn]
      exact decide_eq_true hgt
    have hex : ∃ w, ("content-length", w) ∈ hs := ⟨v, lookupH_mem hv⟩
    simp only [interceptResponse, hh]
    split_ifs with hst
    · rfl
    · exact respHeadersLoop_false_of_cl opts hs hcl hs false hex
  · intro hall
    have hnc : ∀ e ∈ hs, (strLower e.1 == "content-length") = false := by
      intro e he
      have h1 := List.all_eq_true.mp hall e he
      simpa using h1
    simp only [interceptResponse, hh]
    split_ifs with hst
    · rfl
    · exact respHeadersLoop_no_cl opts hs hs hnc

/-- C3 (witness): an oversize `content-length` of 99 against a limit of 10 is
rejected, and a 200 response with headers but no `content-length` is
rejected. -/
theorem interceptResponse_content_length_spec_witness :
    interceptResponse { defaultOptions with maxResponseSize := 10 }
        { initCtx with responseStatusCode := 200,
                       responseHeaders := some [("content-length", "99")] } = false ∧
    interceptResponse defaultOptions
        { initCtx with responseStatusCode := 200,
                       responseHeaders := some [("x-powered-by", "a")] } = false :=
  ⟨(interceptResponse_content_length_spec _ _ [("content-length", "99")] "99" 99 rfl).1
      (by decide) (by decide) (by decide),
   (interceptResponse_content_length_spec _ _ [("x-powered-by", "a")] "" 0 rfl).2 (by decide)⟩

/-! ## Frame lemmas for the lifecycle state machine -/

/-- A tri-state flag that is not `true` is JS-falsy. -/
theorem jsTruthy_ne (o : Option Bool) (h : o ≠ some true) : jsTruthy o = false := by
  cases o with
  | none => rfl
  | some b =>
    cases b with
    | false => rfl
    | true => exact absurd rfl h

/-- Only `onRequestStart` touches the Bloom filter or calls `add`. -/
theorem step_bloom_frame (P : MParams) (s : MState) (e : Event)
    (he : e.isRequestStart = false) :
    (step P s e).bloom = s.bloom ∧ (step P s e).addCalls = s.addCalls := by
  cases e with
  | requestStart => simp [Event.isRequestStart] at he
  | responseStart sc hd =>
    constructor <;> (simp only [step, stepResponseStart]; split_ifs <;> rfl)
  | responseEnd =>
    constructor <;> (simp only [step, stepResponseEnd]; split_ifs <;> rfl)
  | requestUpgrade => exact ⟨rfl, rfl⟩
  | responseData => exact ⟨rfl, rfl⟩
  | responseError => exact ⟨rfl, rfl⟩
  | requestAbort => exact ⟨rfl, rfl⟩

/-- Only `onRequestStart` writes `interceptRequest`, `sendBody` or `sendMeta`. -/
theorem step_flags_frame (P : MParams) (s : MState) (e : Event)
    (he : e.isRequestStart = false) :
    (step P s e).ctx.interceptRequest = s.ctx.interceptRequest ∧
    (step P s e).ctx.sendBody = s.ctx.sendBody ∧
    (step P s e).ctx.sendMeta = s.ctx.sendMeta := by
  cases e with
  | requestStart => simp [Event.isRequestStart] at he
  | responseStart sc hd =>
    refine ⟨?_, ?_, ?_⟩ <;> (simp only [step, stepResponseStart]; split_ifs <;> rfl)
  | responseEnd =>
    refine ⟨?_, ?_, ?_⟩ <;> (simp only [step, stepResponseEnd]; split_ifs <;> rfl)
  | requestUpgrade => exact ⟨rfl, rfl, rfl⟩
  | responseData => exact ⟨rfl, rfl, rfl⟩
  | responseError => exact ⟨rfl, rfl, rfl⟩
  | requestAbort => exact ⟨rfl, rfl, rfl⟩

/-- Only `onRequestStart` and `onResponseStart` modify the context at all. -/
theorem step_ctx_frame (P : MParams) (s : MState) (e : Event)
    (he : e.isRequestStart = false) (he' : e.isResponseStart = false) :
    (step P s e).ctx = s.ctx := by
  cases e with
  | requestStart => simp [Event.isRequestStart] at he
  | responseStart sc hd => simp [Event.isResponseStart] at he'
  | responseEnd => simp only [step, stepResponseEnd]; split_ifs <;> rfl
  | requestUpgrade => rfl
  | responseData => rfl
  | responseError => rfl
  | requestAbort => rfl

/-- Running events without `onRequestStart` leaves the Bloom filter and the
`add` counter unchanged. -/
theorem run_bloom_frame (P : MParams) (t : List Event) (s : MState)
    (h : ∀ e ∈ t, e.isRequestStart = false) :
    (run P t s).bloom = s.bloom ∧ (run P t s).addCalls = s.addCalls := by
  induction t generalizing s with
  | nil => exact ⟨rfl, rfl⟩
  | cons e rest ih =>
    have hs := step_bloom_frame P s e (h e (List.mem_cons_self _ _))
    have hr := ih (step P s e) (fun e' he' => h e' (List.mem_cons_of_mem _ he'))
    exact ⟨hr.1.trans hs.1, hr.2.trans hs.2⟩

/-- Running events without `onRequestStart` preserves the three flags. -/
theorem run_flags_frame (P : MParams) (t : List Event) (s : MState)
    (h : ∀ e ∈ t, e.isRequestStart = false) :
    (run P t s).ctx.interceptRequest = s.ctx.interceptRequest ∧
    (run P t s).ctx.sendBody = s.ctx.sendBody ∧
    (run P t s).ctx.sendMeta = s.ctx.sendMeta := by
  induction t generalizing s with
  | nil => exact ⟨rfl, rfl, rfl⟩
  | cons e rest ih =>
    have hs := step_flags_frame P s e (h e (List.mem_cons_self _ _))
    have hr := ih (step P s e) (fun e' he' => h e' (List.mem_cons_of_mem _ he'))
    exact ⟨hr.1.trans hs.1, hr.2.1.trans hs.2.1, hr.2.2.trans hs.2.2⟩

/-- Running events with neither `onRequestStart` nor `onResponseStart` leaves
the whole context unchanged. -/
theorem run_ctx_frame (P : MParams) (t : List Event) (s : MState)
    (h : ∀ e ∈ t, e.isRequestStart = false ∧ e.isResponseStart = false) :
    (run P t s).ctx = s.ctx := by
  induction t generalizing s with
  | nil => rfl
  | cons e rest ih =>
    have hs := step_ctx_frame P s e (h e (List.mem_cons_self _ _)).1
      (h e (List.mem_cons_self _ _)).2
    have hr := ih (step P s e) (fun e' he' => h e' (List.mem_cons_of_mem _ he'))
    exact hr.trans hs

/-- A single step adds at most one body POST, and only on `onResponseStart`. -/
theorem step_bodyPosts_le (P : MParams) (s : MState) (e : Event) :
    (step P s e).bodyPosts ≤ s.bodyPosts + (if e.isResponseStart then 1 else 0) := by
  cases e with
  | requestStart =>
    simp only [step, stepRequestStart, Event.isResponseStart]
    split_ifs <;> (try dsimp only) <;> omega
  | responseStart sc hd =>
    simp only [step, stepResponseStart, Event.isResponseStart]
    split_ifs <;> (try dsimp only) <;> omega
  | responseEnd =>
    simp only [step, stepResponseEnd, Event.isResponseStart]
    split_ifs <;> (try dsimp only) <;> omega
  | requestUpgrade => simp [step, Event.isResponseStart]
  | responseData => simp [step, Event.isResponseStart]
  | responseError => simp [step, Event.isResponseStart]
  | requestAbort => simp [step, Event.isResponseStart]

/-- A single step adds at most one meta POST, and only on `onResponseEnd`. -/
theorem step_metaPosts_le (P : MParams) (s : MState) (e : Event) :
    (step P s e).metaPosts ≤ s.metaPosts + (if e.isResponseEnd then 1 else 0) := by
  cases e with
  | requestStart =>
    simp only [step, stepRequestStart, Event.isResponseEnd]
    split_ifs <;> (try dsimp only) <;> omega
  | responseStart sc hd =>
    simp only [step, stepResponseStart, Event.isResponseEnd]
    split_ifs <;> (try dsimp only) <;> omega
  | responseEnd =>
    simp only [step, stepResponseEnd, Event.isResponseEnd]
    split_ifs <;> (try dsimp only) <;> omega
  | requestUpgrade => simp [step, Event.isResponseEnd]
  | responseData => simp [step, Event.isResponseEnd]
  | responseError => simp [step, Event.isResponseEnd]
  | requestAbort => simp [step, Event.isResponseEnd]

/-- Attempted body POSTs are bounded by the number of `onResponseStart`
callbacks in the trace. -/
theorem run_bodyPosts_le (P : MParams) (t : List Event) (s : MState) :
    (run P t s).bodyPosts ≤ s.bodyPosts + t.countP (·.isResponseStart) := by
  induction t generalizing s with
  | nil => simp [run]
  | cons e rest ih =>
    have h1 := step_bodyPosts_le P s e
    have h2 := ih (step P s e)
    rw [List.countP_cons]
    show (run P rest (step P s e)).bodyPosts ≤ _
    by_cases he : e.isResponseStart <;> simp [he] at h1 ⊢ <;> omega

/-- Attempted meta POSTs are bounded by the number of `onResponseEnd`
callbacks in the trace. -/
theorem run_metaPosts_le (P : MParams) (t : List Event) (s : MState) :
    (run P t s).metaPosts ≤ s.metaPosts + t.countP (·.isResponseEnd) := by
  induction t generalizing s with
  | nil => simp [run]
  | cons e rest ih =>
    have h1 := step_metaPosts_le P s e
    have h2 := ih (step P s e)
    rw [List.countP_cons]
    show (run P rest (step P s e)).metaPosts ≤ _
    by_cases he : e.isResponseEnd <;> simp [he] at h1 ⊢ <;> omega

/-! ## Invariant lemmas for the lifecycle state machine -/

/-- `onRequestStart` itself never posts, never evaluates the response
predicate, and reads its dispatch options unchanged. -/
theorem stepRequestStart_base (P : MParams) (s : MState) :
    (stepRequestStart P s).bodyPosts = s.bodyPosts ∧
    (stepRequestStart P s).metaPosts = s.metaPosts ∧
    (stepRequestStart P s).ctx.interceptResponse = s.ctx.interceptResponse ∧
    (stepRequestStart P s).dopts = s.dopts := by
  simp only [stepRequestStart]
  split_ifs <;> exact ⟨rfl, rfl, rfl, rfl⟩

/-- Request rejection branch of `onRequestStart`. -/
theorem stepRequestStart_pred_false (P : MParams) (s : MState)
    (h : P.reqPred (requestSetup P.opts s.dopts s.ctx) = false) :
    stepRequestStart P s =
      { s with ctx := { requestSetup P.opts s.dopts s.ctx with
          interceptRequest := some false, sendBody := some false, sendMeta := some false } } := by
  simp [stepRequestStart, h]

/-- Bloom-hit branch of `onRequestStart`: meta only, no insertion. -/
theorem stepRequestStart_bloom_hit (P : MParams) (s : MState)
    (h : P.reqPred (requestSetup P.opts s.dopts s.ctx) = true)
    (hh : s.bloom.has (P.hashFn (jsUrlOf s.dopts)) = true) :
    stepRequestStart P s =
      { s with ctx := { requestSetup P.opts s.dopts s.ctx with
          interceptRequest := some true,
          requestHash := some (P.hashFn (jsUrlOf s.dopts)),
          sendMeta := some true, sendBody := some false } } := by
  simp [stepRequestStart, h, hh]

/-- Bloom-miss branch of `onRequestStart`: insert and send body and meta. -/
theorem stepRequestStart_bloom_miss (P : MParams) (s : MState)
    (h : P.reqPred (requestSetup P.opts s.dopts s.ctx) = true)
    (hh : s.bloom.has (P.hashFn (jsUrlOf s.dopts)) = false) :
    stepRequestStart P s =
      { s with
        ctx := { requestSetup P.opts s.dopts s.ctx with
          interceptRequest := some true,
          requestHash := some (P.hashFn (jsUrlOf s.dopts)),
          sendMeta := some true, sendBody := some true },
        bloom := s.bloom.add (P.hashFn (jsUrlOf s.dopts)),
        addCalls := s.addCalls + 1 } := by
  simp [stepRequestStart, h, hh]

/-- Without a truthy `sendBody`, no step after `onRequestStart` attempts a
body POST. -/
theorem step_body_keep (P : MParams) (s : MState) (e : Event)
    (he : e.isRequestStart = false) (hsb : s.ctx.sendBody ≠ some true) :
    (step P s e).bodyPosts = s.bodyPosts := by
  cases e with
  | requestStart => simp [Event.isRequestStart] at he
  | responseStart sc hd =>
    simp only [step, stepResponseStart]
    split_ifs with h1 h2 h3
    · rfl
    · rfl
    · have h3' : jsTruthy s.ctx.sendBody = true := h3
      rw [jsTruthy_ne _ hsb] at h3'
      exact Bool.noConfusion h3'
    · rfl
  | responseEnd => simp only [step, stepResponseEnd]; split_ifs <;> rfl
  | requestUpgrade => rfl
  | responseData => rfl
  | responseError => rfl
  | requestAbort => rfl

/-- Without a truthy `sendBody` after `onRequestStart`, the rest of the
transaction attempts no body POST. -/
theorem run_body_zero (P : MParams) (t : List Event) (s : MState)
    (hnr : ∀ e ∈ t, e.isRequestStart = false)
    (hsb : s.ctx.sendBody ≠ some true) (hb : s.bodyPosts = 0) :
    (run P t s).bodyPosts = 0 := by
  induction t generalizing s with
  | nil => exact hb
  | cons e rest ih =>
    have he := hnr e (List.mem_cons_self _ _)
    have hnr' : ∀ e' ∈ rest, e'.isRequestStart = false :=
      fun e' he' => hnr e' (List.mem_cons_of_mem _ he')
    refine ih (step P s e) hnr' ?_ ?_
    · rw [(step_flags_frame P s e he).2.1]
      exact hsb
    · rw [step_body_keep P s e he hsb]
      exact hb

/-- Unless `interceptResponse` is truthy, a step that is neither
`onRequestStart` nor `onResponseStart` changes no POST counter. -/
theorem step_keep_of_iResp (P : MParams) (s : MState) (e : Event)
    (he : e.isRequestStart = false) (he' : e.isResponseStart = false)
    (hi : s.ctx.interceptResponse ≠ some true) :
    (step P s e).bodyPosts = s.bodyPosts ∧ (step P s e).metaPosts = s.metaPosts := by
  cases e with
  | requestStart => simp [Event.isRequestStart] at he
  | responseStart sc hd => simp [Event.isResponseStart] at he'
  | responseEnd => simp [step, stepResponseEnd, jsTruthy_ne _ hi]
  | requestUpgrade => exact ⟨rfl, rfl⟩
  | responseData => exact ⟨rfl, rfl⟩
  | responseError => exact ⟨rfl, rfl⟩
  | requestAbort => exact ⟨rfl, rfl⟩

/-- Unless `interceptResponse` is truthy, a trace without `onRequestStart` and
`onResponseStart` changes neither the POST counters nor the context. -/
theorem run_keep_of_iResp (P : MParams) (t : List Event) (s : MState)
    (h : ∀ e ∈ t, e.isRequestStart = false ∧ e.isResponseStart = false)
    (hi : s.ctx.interceptResponse ≠ some true) :
    (run P t s).bodyPosts = s.bodyPosts ∧ (run P t s).metaPosts = s.metaPosts ∧
    (run P t s).ctx = s.ctx := by
  induction t generalizing s with
  | nil => exact ⟨rfl, rfl, rfl⟩
  | cons e rest ih =>
    have he := h e (List.mem_cons_self _ _)
    have h' : ∀ e' ∈ rest, e'.isRequestStart = false ∧ e'.isResponseStart = false :=
      fun e' he' => h e' (List.mem_cons_of_mem _ he')
    have hctx := step_ctx_frame P s e he.1 he.2
    have hkeep := step_keep_of_iResp P s e he.1 he.2 hi
    have hr := ih (step P s e) h' (by rw [hctx]; exact hi)
    exact ⟨hr.1.trans hkeep.1, hr.2.1.trans hkeep.2, hr.2.2.trans hctx⟩

/-- After a rejected request (`interceptRequest = false`), every further
lifecycle callback leaves `interceptResponse` undefined and posts nothing. -/
theorem run_noposts_iRfalse (P : MParams) (t : List Event) (s : MState)
    (hnr : ∀ e ∈ t, e.isRequestStart = false)
    (hf : s.ctx.interceptRequest = some false) (hi : s.ctx.interceptResponse = none)
    (hb : s.bodyPosts = 0) (hm : s.metaPosts = 0) :
    (run P t s).bodyPosts = 0 ∧ (run P t s).metaPosts = 0 := by
  induction t generalizing s with
  | nil => exact ⟨hb, hm⟩
  | cons e rest ih =>
    have hnr' : ∀ e' ∈ rest, e'.isRequestStart = false :=
      fun e' he' => hnr e' (List.mem_cons_of_mem _ he')
    cases e with
    | requestStart =>
      have := hnr _ (List.mem_cons_self _ _)
      simp [Event.isRequestStart] at this
    | responseStart sc hd =>
      have hstep : step P s (.responseStart sc hd) =
          { s with ctx := { s.ctx with responseStatusCode := sc, responseHeaders := hd } } := by
        simp [step, stepResponseStart, hf, jsTruthy]
      rw [run, List.foldl_cons, hstep]
      exact ih _ hnr' hf hi hb hm
    | responseEnd =>
      have hstep : step P s .responseEnd = s := by
        simp [step, stepResponseEnd, hi, jsTruthy]
      rw [run, List.foldl_cons, hstep]
      exact ih _ hnr' hf hi hb hm
    | requestUpgrade => exact ih _ hnr' hf hi hb hm
    | responseData => exact ih _ hnr' hf hi hb hm
    | responseError => exact ih _ hnr' hf hi hb hm
    | requestAbort => exact ih _ hnr' hf hi hb hm

/-- If a trace headed by an event satisfying `p` has at most one `p`-event,
the tail has none. -/
theorem countP_zero_of_cons {p : Event → Bool} {e : Event} {rest : List Event}
    (h : List.countP p (e :: rest) ≤ 1) (hpe : p e = true) :
    List.countP p rest = 0 := by
  rw [List.countP_cons, hpe] at h
  have h1 : (if true = true then 1 else 0) = 1 := rfl
  rw [h1] at h
  omega

/-- The central C5 lemma: starting after `onRequestStart` (no posts yet,
`interceptResponse` undefined), a trace without further `onRequestStart` and
with at most one `onResponseStart` that does not end with a truthy
`interceptResponse` posts nothing at all. -/
theorem run_noposts_iResp (P : MParams) (t : List Event) (s : MState)
    (hnr : ∀ e ∈ t, e.isRequestStart = false)
    (hrs : t.countP (·.isResponseStart) ≤ 1)
    (hi : s.ctx.interceptResponse = none) (hb : s.bodyPosts = 0) (hm : s.metaPosts = 0) :
    (run P t s).ctx.interceptResponse ≠ some true →
      (run P t s).bodyPosts = 0 ∧ (run P t s).metaPosts = 0 := by
  induction t generalizing s with
  | nil => intro _; exact ⟨hb, hm⟩
  | cons e rest ih =>
    have hnr' : ∀ e' ∈ rest, e'.isRequestStart = false :=
      fun e' he' => hnr e' (List.mem_cons_of_mem _ he')
    have hrs' : rest.countP (·.isResponseStart) ≤ 1 := by
      rw [List.countP_cons] at hrs
      omega
    cases e with
    | requestStart =>
      have := hnr _ (List.mem_cons_self _ _)
      simp [Event.isRequestStart] at this
    | responseStart sc hd =>
      have h0 : rest.countP (·.isResponseStart) = 0 := countP_zero_of_cons hrs rfl
      have hnone : ∀ e' ∈ rest, e'.isRequestStart = false ∧ e'.isResponseStart = false := by
        intro e' he'
        refine ⟨hnr' e' he', ?_⟩
        have hnp := List.countP_eq_zero.mp h0 e' he'
        exact Bool.eq_false_iff.mpr hnp
      show (run P rest (step P s (.responseStart sc hd))).ctx.interceptResponse ≠ some true →
        (run P rest (step P s (.responseStart sc hd))).bodyPosts = 0 ∧
          (run P rest (step P s (.responseStart sc hd))).metaPosts = 0
      by_cases hIR : jsTruthy s.ctx.interceptRequest = true
      · by_cases hP : P.respPred
            { s.ctx with responseStatusCode := sc, responseHeaders := hd } = true
        · -- response admitted: interceptResponse becomes and stays `some true`
          intro hfin
          exfalso
          apply hfin
          rw [run_ctx_frame P rest _ hnone]
          by_cases hsb : jsTruthy s.ctx.sendBody = true
          · simp [step, stepResponseStart, hIR, hP, hsb]
          · simp [step, stepResponseStart, hIR, hP, Bool.eq_false_iff.mpr hsb]
        · -- response rejected: `interceptResponse = some false`, nothing posted
          intro _
          have hPf : P.respPred
              { s.ctx with responseStatusCode := sc, responseHeaders := hd } = false :=
            Bool.eq_false_iff.mpr hP
          have hne : (step P s (.responseStart sc hd)).ctx.interceptResponse ≠ some true := by
            simp [step, stepResponseStart, hIR, hPf]
          have hkeep := run_keep_of_iResp P rest (step P s (.responseStart sc hd)) hnone hne
          refine ⟨?_, ?_⟩
          · rw [hkeep.1]
            simp [step, stepResponseStart, hIR, hPf, hb]
          · rw [hkeep.2.1]
            simp [step, stepResponseStart, hIR, hPf, hm]
      · -- request not admitted by the time of onResponseStart: early return
        have hIRf : jsTruthy s.ctx.interceptRequest = false := Bool.eq_false_iff.mpr hIR
        have hi' : (step P s (.responseStart sc hd)).ctx.interceptResponse = none := by
          simp [step, stepResponseStart, hIRf, hi]
        have hb' : (step P s (.responseStart sc hd)).bodyPosts = 0 := by
          simp [step, stepResponseStart, hIRf, hb]
        have hm' : (step P s (.responseStart sc hd)).metaPosts = 0 := by
          simp [step, stepResponseStart, hIRf, hm]
        exact ih _ hnr' hrs' hi' hb' hm'
    | responseEnd =>
      have hstep : step P s .responseEnd = s := by
        simp [step, stepResponseEnd, hi, jsTruthy]
      show (run P rest (step P s .responseEnd)).ctx.interceptResponse ≠ some true →
        (run P rest (step P s .responseEnd)).bodyPosts = 0 ∧
          (run P rest (step P s .responseEnd)).metaPosts = 0
      rw [hstep]
      exact ih _ hnr' hrs' hi hb hm
    | requestUpgrade => exact ih _ hnr' hrs' hi hb hm
    | responseData => exact ih _ hnr' hrs' hi hb hm
    | responseError => exact ih _ hnr' hrs' hi hb hm
    | requestAbort => exact ih _ hnr' hrs' hi hb hm

/-! ## Claim C6: flag invariant -/

/-- One step preserves the two flag implications. -/
theorem step_flagInv (P : MParams) (s : MState) (e : Event)
    (h1 : s.ctx.sendBody = some true → s.ctx.sendMeta = some true)
    (h2 : s.ctx.interceptRequest = some false →
      s.ctx.sendBody = some false ∧ s.ctx.sendMeta = some false) :
    ((step P s e).ctx.sendBody = some true → (step P s e).ctx.sendMeta = some true) ∧
    ((step P s e).ctx.interceptRequest = some false →
      (step P s e).ctx.sendBody = some false ∧ (step P s e).ctx.sendMeta = some false) := by
  cases e with
  | requestStart =>
    rw [show step P s Event.requestStart = stepRequestStart P s from rfl]
    by_cases hpred : P.reqPred (requestSetup P.opts s.dopts s.ctx) = true
    · by_cases hhas : s.bloom.has (P.hashFn (jsUrlOf s.dopts)) = true
      · rw [stepRequestStart_bloom_hit P s hpred hhas]
        exact ⟨fun h => by simp at h, fun h => by simp at h⟩
      · rw [stepRequestStart_bloom_miss P s hpred (Bool.eq_false_iff.mpr hhas)]
        exact ⟨fun _ => rfl, fun h => by simp at h⟩
    · rw [stepRequestStart_pred_false P s (Bool.eq_false_iff.mpr hpred)]
      exact ⟨fun h => by simp at h, fun _ => ⟨rfl, rfl⟩⟩
  | responseStart sc hd =>
    have hf := step_flags_frame P s (Event.responseStart sc hd) rfl
    rw [hf.1, hf.2.1, hf.2.2]
    exact ⟨h1, h2⟩
  | responseEnd =>
    have hf := step_flags_frame P s Event.responseEnd rfl
    rw [hf.1, hf.2.1, hf.2.2]
    exact ⟨h1, h2⟩
  | requestUpgrade => exact ⟨h1, h2⟩
  | responseData => exact ⟨h1, h2⟩
  | responseError => exact ⟨h1, h2⟩
  | requestAbort => exact ⟨h1, h2⟩

/-- The flag implications are preserved along any trace. -/
theorem run_flagInv (P : MParams) (t : List Event) : ∀ s : MState,
    (s.ctx.sendBody = some true → s.ctx.sendMeta = some true) →
    (s.ctx.interceptRequest = some false →
      s.ctx.sendBody = some false ∧ s.ctx.sendMeta = some false) →
    ((run P t s).ctx.sendBody = some true → (run P t s).ctx.sendMeta = some true) ∧
    ((run P t s).ctx.interceptRequest = some false →
      (run P t s).ctx.sendBody = some false ∧ (run P t s).ctx.sendMeta = some false) := by
  induction t with
  | nil => intro s h1 h2; exact ⟨h1, h2⟩
  | cons e rest ih =>
    intro s h1 h2
    have hstep := step_flagInv P s e h1 h2
    exact ih _ hstep.1 hstep.2

/-- C6: in every context state reachable from a fresh transaction by any
sequence of lifecycle callbacks (aborts included), `sendBody = true` implies
`sendMeta = true`, and `interceptRequest = false` implies both `sendBody` and
`sendMeta` are `false`.  This holds for arbitrary predicates, options, hash
functions and initial Bloom filter. -/
theorem context_flag_invariant (P : MParams) (d : DispatchOptions) (b0 : BloomFilter)
    (t : List Event) :
    ((run P t (initState d b0)).ctx.sendBody = some true →
      (run P t (initState d b0)).ctx.sendMeta = some true) ∧
    ((run P t (initState d b0)).ctx.interceptRequest = some false →
      (run P t (initState d b0)).ctx.sendBody = some false ∧
        (run P t (initState d b0)).ctx.sendMeta = some false) :=
  run_flagInv P t (initState d b0) (fun h => nomatch h) (fun h => nomatch h)

/-! ## Claim C4: at most one body POST and one meta POST per transaction -/

/-- C4 (counterexample): the claim demands exactly one body POST for every
transaction driven through the lifecycle, but a transaction whose request is
dropped (here a `POST` method, rejected by `interceptRequest`) attempts zero
body POSTs. -/
theorem lifecycle_not_exactly_one_body_post_cex :
    (run (defaultParams (fun _ => 0) defaultOptions)
        [Event.requestStart,
         Event.responseStart 200 (some [("content-length", "17")]),
         Event.responseData, Event.responseEnd]
        (initState
          { method := "POST", origin := some "http://app", path := some "/dummy",
            headers := none }
          (BloomFilter.create 8 2))).bodyPosts ≠ 1 := by decide

/-- C4 (amended): for every transaction driven through the lifecycle callbacks
(with `onResponseStart` and `onResponseEnd` each delivered at most once, as
the dispatcher contract guarantees), at most one body POST to `pathSendBody`
and at most one meta POST to `pathSendMeta` are attempted. -/
theorem at_most_one_body_and_meta_post (P : MParams) (d : DispatchOptions)
    (b0 : BloomFilter) (t : List Event)
    (h1 : t.countP (·.isResponseStart) ≤ 1) (h2 : t.countP (·.isResponseEnd) ≤ 1) :
    (run P t (initState d b0)).bodyPosts ≤ 1 ∧ (run P t (initState d b0)).metaPosts ≤ 1 := by
  have hb := run_bodyPosts_le P t (initState d b0)
  have hm := run_metaPosts_le P t (initState d b0)
  have hb0 : (initState d b0).bodyPosts = 0 := rfl
  have hm0 : (initState d b0).metaPosts = 0 := rfl
  omega

/-- C4 (witness): a concrete admitted `GET` transaction attempts one body and
one meta POST — within the bound. -/
theorem at_most_one_body_and_meta_post_witness :
    (run (defaultParams (fun _ => 42) defaultOptions)
        [Event.requestStart,
         Event.responseStart 200 (some [("content-length", "17")]),
         Event.responseData, Event.responseEnd]
        (initState
          { method := "GET", origin := some "http://app", path := some "/dummy",
            headers := none }
          (BloomFilter.create 8 2))).bodyPosts ≤ 1 ∧
    (run (defaultParams (fun _ => 42) defaultOptions)
        [Event.requestStart,
         Event.responseStart 200 (some [("content-length", "17")]),
         Event.responseData, Event.responseEnd]
        (initState
          { method := "GET", origin := some "http://app", path := some "/dummy",
            headers := none }
          (BloomFilter.create 8 2))).metaPosts ≤ 1 :=
  at_most_one_body_and_meta_post _ _ _ _ (by decide) (by decide)

/-! ## Claim C5: rejected transactions post nothing -/

/-- C5: for every transaction whose request predicate rejected it
(`interceptRequest = false`), and for every transaction that passed the
request filters but whose response predicate rejected it
(`interceptResponse = false`), no POST is attempted to `pathSendBody` or
`pathSendMeta`.  The trace is `onRequestStart` followed by any events that
contain no further `onRequestStart` and at most one `onResponseStart`. -/
theorem no_posts_when_filtered (P : MParams) (d : DispatchOptions) (b0 : BloomFilter)
    (r : List Event)
    (hnr : ∀ e ∈ r, e.isRequestStart = false)
    (hrs : r.countP (·.isResponseStart) ≤ 1) :
    ((run P (Event.requestStart :: r) (initState d b0)).ctx.interceptRequest = some false →
      (run P (Event.requestStart :: r) (initState d b0)).bodyPosts = 0 ∧
        (run P (Event.requestStart :: r) (initState d b0)).metaPosts = 0) ∧
    ((run P (Event.requestStart :: r) (initState d b0)).ctx.interceptResponse = some false →
      (run P (Event.requestStart :: r) (initState d b0)).bodyPosts = 0 ∧
        (run P (Event.requestStart :: r) (initState d b0)).metaPosts = 0) := by
  have heq : run P (Event.requestStart :: r) (initState d b0) =
      run P r (step P (initState d b0) Event.requestStart) := rfl
  rw [heq]
  have hbase := stepRequestStart_base P (initState d b0)
  have hb1 : (step P (initState d b0) Event.requestStart).bodyPosts = 0 := hbase.1.trans rfl
  have hm1 : (step P (initState d b0) Event.requestStart).metaPosts = 0 := hbase.2.1.trans rfl
  have hi1 : (step P (initState d b0) Event.requestStart).ctx.interceptResponse = none :=
    hbase.2.2.1.trans rfl
  constructor
  · intro hir
    have hpres :=
      (run_flags_frame P r (step P (initState d b0) Event.requestStart) hnr).1
    rw [hpres] at hir
    exact run_noposts_iRfalse P r _ hnr hir hi1 hb1 hm1
  · intro hresp
    refine run_noposts_iResp P r _ hnr hrs hi1 hb1 hm1 ?_
    rw [hresp]
    simp

/-- C5 (witness): a `GET` transaction whose response comes back `500` (failing
the status-code filter) posts nothing. -/
theorem no_posts_when_filtered_witness :
    (run (defaultParams (fun _ => 42) defaultOptions)
        (Event.requestStart ::
          [Event.responseStart 500 (some [("content-length", "3")]), Event.responseEnd])
        (initState
          { method := "GET", origin := some "http://app", path := some "/dummy",
            headers := none }
          (BloomFilter.create 8 2))).bodyPosts = 0 ∧
    (run (defaultParams (fun _ => 42) defaultOptions)
        (Event.requestStart ::
          [Event.responseStart 500 (some [("content-length", "3")]), Event.responseEnd])
        (initState
          { method := "GET", origin := some "http://app", path := some "/dummy",
            headers := none }
          (BloomFilter.create 8 2))).metaPosts = 0 :=
  (no_posts_when_filtered _ _ _ _ (by decide) (by decide)).2 (by decide)

/-! ## Claim C7: the Bloom filter is mutated only on admission -/

/-- C7: with the default `interceptRequest` predicate (the method, domain,
header and cookie checks), a transaction calls `BloomFilter.add` at most once;
it calls it exactly once precisely when the checks all passed and the filter
did not already contain the request-identity hash; and no lifecycle callback
after `onRequestStart` ever changes the filter. -/
theorem bloom_add_only_on_admission (P : MParams) (d : DispatchOptions) (b0 : BloomFilter)
    (r : List Event)
    (hreq : P.reqPred = interceptRequest P.opts)
    (hnr : ∀ e ∈ r, e.isRequestStart = false) :
    (run P (Event.requestStart :: r) (initState d b0)).addCalls ≤ 1 ∧
    ((run P (Event.requestStart :: r) (initState d b0)).addCalls = 1 ↔
      (interceptRequest P.opts (requestSetup P.opts d initCtx) = true ∧
        b0.has (P.hashFn (jsUrlOf d)) = false)) ∧
    (run P (Event.requestStart :: r) (initState d b0)).bloom =
      (step P (initState d b0) Event.requestStart).bloom := by
  have heq : run P (Event.requestStart :: r) (initState d b0) =
      run P r (step P (initState d b0) Event.requestStart) := rfl
  rw [heq]
  have hframe := run_bloom_frame P r (step P (initState d b0) Event.requestStart) hnr
  rw [hframe.1, hframe.2]
  have hseq : step P (initState d b0) Event.requestStart =
      stepRequestStart P (initState d b0) := rfl
  refine ⟨?_, ?_, rfl⟩ <;>
    by_cases hpred : interceptRequest P.opts (requestSetup P.opts d initCtx) = true
  · by_cases hhas : b0.has (P.hashFn (jsUrlOf d)) = true
    · rw [hseq, stepRequestStart_bloom_hit P _ (by rw [hreq]; exact hpred) hhas]
      exact Nat.zero_le 1
    · rw [hseq, stepRequestStart_bloom_miss P _ (by rw [hreq]; exact hpred)
        (Bool.eq_false_iff.mpr hhas)]
      exact Nat.le_refl 1
  · rw [hseq, stepRequestStart_pred_false P _ (by rw [hreq]; exact Bool.eq_false_iff.mpr hpred)]
    exact Nat.zero_le 1
  · by_cases hhas : b0.has (P.hashFn (jsUrlOf d)) = true
    · rw [hseq, stepRequestStart_bloom_hit P _ (by rw [hreq]; exact hpred) hhas]
      simp [hpred, hhas, initState]
    · rw [hseq, stepRequestStart_bloom_miss P _ (by rw [hreq]; exact hpred)
        (Bool.eq_false_iff.mpr hhas)]
      simp [hpred, Bool.eq_false_iff.mpr hhas, initState]
  · rw [hseq, stepRequestStart_pred_false P _ (by rw [hreq]; exact Bool.eq_false_iff.mpr hpred)]
    simp [hpred, initState]

/-- C7 (witness): an admitted `GET` on a fresh filter inserts exactly once and
the filter is untouched by the rest of the lifecycle. -/
theorem bloom_add_only_on_admission_witness :
    (run (defaultParams (fun _ => 42) defaultOptions)
        (Event.requestStart ::
          [Event.responseStart 200 (some [("content-length", "3")]), Event.responseEnd])
        (initState
          { method := "GET", origin := some "http://app", path := some "/dummy",
            headers := none }
          (BloomFilter.create 8 2))).addCalls ≤ 1 :=
  (bloom_add_only_on_admission (defaultParams (fun _ => 42) defaultOptions)
    { method := "GET", origin := some "http://app", path := some "/dummy", headers := none }
    (BloomFilter.create 8 2)
    [Event.responseStart 200 (some [("content-length", "3")]), Event.responseEnd]
    rfl (by decide)).1

/-! ## Claim C1: Bloom deduplication gates body mirroring -/

/-- C1: on an admitted request, `onRequestStart` checks the shared Bloom
filter against the 64-bit identity hash of `request.url`: a hit yields
`sendMeta = true, sendBody = false` and an unchanged filter, a miss inserts
the hash and yields `sendMeta = true, sendBody = true`.  Consequently two
sequential transactions through the same interceptor with identical computed
URLs attempt at most one body POST between them. -/
theorem dedup_at_most_one_body_post (P : MParams) (d1 d2 : DispatchOptions)
    (b0 : BloomFilter) (r1 r2 : List Event)
    (hwf : BloomWF b0)
    (hnr1 : ∀ e ∈ r1, e.isRequestStart = false)
    (hnr2 : ∀ e ∈ r2, e.isRequestStart = false)
    (hrs1 : r1.countP (·.isResponseStart) ≤ 1)
    (hrs2 : r2.countP (·.isResponseStart) ≤ 1)
    (hurl : jsUrlOf d1 = jsUrlOf d2) :
    (P.reqPred (requestSetup P.opts d1 initCtx) = true →
      (b0.has (P.hashFn (jsUrlOf d1)) = true →
        (step P (initState d1 b0) Event.requestStart).ctx.sendMeta = some true ∧
        (step P (initState d1 b0) Event.requestStart).ctx.sendBody = some false ∧
        (step P (initState d1 b0) Event.requestStart).bloom = b0) ∧
      (b0.has (P.hashFn (jsUrlOf d1)) = false →
        (step P (initState d1 b0) Event.requestStart).ctx.sendMeta = some true ∧
        (step P (initState d1 b0) Event.requestStart).ctx.sendBody = some true ∧
        (step P (initState d1 b0) Event.requestStart).bloom =
          b0.add (P.hashFn (jsUrlOf d1)))) ∧
    (run P (Event.requestStart :: r1) (initState d1 b0)).bodyPosts +
      (run P (Event.requestStart :: r2)
        (initState d2
          (run P (Event.requestStart :: r1) (initState d1 b0)).bloom)).bodyPosts ≤ 1 := by
  have hs1eq : step P (initState d1 b0) Event.requestStart =
      stepRequestStart P (initState d1 b0) := rfl
  constructor
  · intro hpred
    constructor
    · intro hhas
      rw [hs1eq, stepRequestStart_bloom_hit P _ hpred hhas]
      exact ⟨rfl, rfl, rfl⟩
    · intro hhasf
      rw [hs1eq, stepRequestStart_bloom_miss P _ hpred hhasf]
      exact ⟨rfl, rfl, rfl⟩
  · -- at most one body POST across the two transactions
    have heq1 : run P (Event.requestStart :: r1) (initState d1 b0) =
        run P r1 (step P (initState d1 b0) Event.requestStart) := rfl
    have hbase1 := stepRequestStart_base P (initState d1 b0)
    have hsb0 : (step P (initState d1 b0) Event.requestStart).bodyPosts = 0 :=
      hbase1.1.trans rfl
    -- a generic bound for either transaction considered alone
    have tx1_le :
        (run P (Event.requestStart :: r1) (initState d1 b0)).bodyPosts ≤ 1 := by
      rw [heq1]
      have hle := run_bodyPosts_le P r1 (step P (initState d1 b0) Event.requestStart)
      omega
    by_cases hpred : P.reqPred (requestSetup P.opts d1 initCtx) = true
    · by_cases hhas : b0.has (P.hashFn (jsUrlOf d1)) = true
      · -- bloom hit: transaction 1 posts no body, transaction 2 posts at most one
        have hsb1 : (step P (initState d1 b0) Event.requestStart).ctx.sendBody ≠
            some true := by
          rw [hs1eq, stepRequestStart_bloom_hit P _ hpred hhas]
          simp
        have hb1 : (run P (Event.requestStart :: r1) (initState d1 b0)).bodyPosts = 0 := by
          rw [heq1]
          exact run_body_zero P r1 _ hnr1 hsb1 hsb0
        have hb2 : (run P (Event.requestStart :: r2)
            (initState d2
              (run P (Event.requestStart :: r1) (initState d1 b0)).bloom)).bodyPosts ≤ 1 := by
          have hle := run_bodyPosts_le P r2 (step P (initState d2
            (run P (Event.requestStart :: r1) (initState d1 b0)).bloom) Event.requestStart)
          have hsb0' : (step P (initState d2
              (run P (Event.requestStart :: r1) (initState d1 b0)).bloom)
                Event.requestStart).bodyPosts = 0 :=
            (stepRequestStart_base P (initState d2
              (run P (Event.requestStart :: r1) (initState d1 b0)).bloom)).1.trans rfl
          show (run P r2 (step P (initState d2
            (run P (Event.requestStart :: r1) (initState d1 b0)).bloom)
              Event.requestStart)).bodyPosts ≤ 1
          omega
        omega
      · -- bloom miss: transaction 1 inserted the hash, so transaction 2 hits
        have hhasf : b0.has (P.hashFn (jsUrlOf d1)) = false := Bool.eq_false_iff.mpr hhas
        have hbloom1 : (run P (Event.requestStart :: r1) (initState d1 b0)).bloom =
            b0.add (P.hashFn (jsUrlOf d1)) := by
          rw [heq1, (run_bloom_frame P r1 (step P (initState d1 b0) Event.requestStart)
            hnr1).1, hs1eq, stepRequestStart_bloom_miss P _ hpred hhasf]
          rfl
        rw [hbloom1]
        have hs2eq : step P (initState d2 (b0.add (P.hashFn (jsUrlOf d1))))
            Event.requestStart =
            stepRequestStart P (initState d2 (b0.add (P.hashFn (jsUrlOf d1)))) := rfl
        have hsb2 : (step P (initState d2 (b0.add (P.hashFn (jsUrlOf d1))))
            Event.requestStart).ctx.sendBody ≠ some true := by
          by_cases hpred2 : P.reqPred (requestSetup P.opts d2 initCtx) = true
          · have hhas2 : (b0.add (P.hashFn (jsUrlOf d1))).has
                (P.hashFn (jsUrlOf d2)) = true := by
              rw [← hurl]
              exact has_add_self hwf _
            rw [hs2eq, stepRequestStart_bloom_hit P _ hpred2 hhas2]
            simp
          · rw [hs2eq, stepRequestStart_pred_false P _ (Bool.eq_false_iff.mpr hpred2)]
            simp
        have hb2 : (run P (Event.requestStart :: r2)
            (initState d2 (b0.add (P.hashFn (jsUrlOf d1))))).bodyPosts = 0 := by
          show (run P r2 (step P (initState d2 (b0.add (P.hashFn (jsUrlOf d1))))
            Event.requestStart)).bodyPosts = 0
          exact run_body_zero P r2 _ hnr2 hsb2
            ((stepRequestStart_base P (initState d2
              (b0.add (P.hashFn (jsUrlOf d1))))).1.trans rfl)
        omega
    · -- request rejected: transaction 1 posts no body
      have hsb1 : (step P (initState d1 b0) Event.requestStart).ctx.sendBody ≠
          some true := by
        rw [hs1eq, stepRequestStart_pred_false P _ (Bool.eq_false_iff.mpr hpred)]
        simp
      have hb1 : (run P (Event.requestStart :: r1) (initState d1 b0)).bodyPosts = 0 := by
        rw [heq1]
        exact run_body_zero P r1 _ hnr1 hsb1 hsb0
      have hb2 : (run P (Event.requestStart :: r2)
          (initState d2
            (run P (Event.requestStart :: r1) (initState d1 b0)).bloom)).bodyPosts ≤ 1 := by
        have hle := run_bodyPosts_le P r2 (step P (initState d2
          (run P (Event.requestStart :: r1) (initState d1 b0)).bloom) Event.requestStart)
        have hsb0' : (step P (initState d2
            (run P (Event.requestStart :: r1) (initState d1 b0)).bloom)
              Event.requestStart).bodyPosts = 0 :=
          (stepRequestStart_base P (initState d2
            (run P (Event.requestStart :: r1) (initState d1 b0)).bloom)).1.trans rfl
        show (run P r2 (step P (initState d2
          (run P (Event.requestStart :: r1) (initState d1 b0)).bloom)
            Event.requestStart)).bodyPosts ≤ 1
        omega
      omega

/-- C1 (witness): two identical concrete `GET` transactions in sequence
attempt at most one body POST between them. -/
theorem dedup_at_most_one_body_post_witness :
    (run (defaultParams (fun _ => 42) defaultOptions)
      (Event.requestStart ::
        [Event.responseStart 200 (some [("content-length", "17")]), Event.responseEnd])
      (initState
        { method := "GET", origin := some "http://app", path := some "/dummy",
          headers := none }
        (BloomFilter.create 8 2))).bodyPosts +
    (run (defaultParams (fun _ => 42) defaultOptions)
      (Event.requestStart ::
        [Event.responseStart 200 (some [("content-length", "17")]), Event.responseEnd])
      (initState
        { method := "GET", origin := some "http://app", path := some "/dummy",
          headers := none }
        (run (defaultParams (fun _ => 42) defaultOptions)
          (Event.requestStart ::
            [Event.responseStart 200 (some [("content-length", "17")]), Event.responseEnd])
          (initState
            { method := "GET", origin := some "http://app", path := some "/dummy",
              headers := none }
            (BloomFilter.create 8 2))).bloom)).bodyPosts ≤ 1 :=
  (dedup_at_most_one_body_post (defaultParams (fun _ => 42) defaultOptions)
    { method := "GET", origin := some "http://app", path := some "/dummy", headers := none }
    { method := "GET", origin := some "http://app", path := some "/dummy", headers := none }
    (BloomFilter.create 8 2)
    [Event.responseStart 200 (some [("content-length", "17")]), Event.responseEnd]
    [Event.responseStart 200 (some [("content-length", "17")]), Event.responseEnd]
    (by constructor <;> decide) (by decide) (by decide) (by decide) (by decide) rfl).2
